import Mathlib

/-!
Verification of the TOTP code generator of
`keeper_secrets_manager_core/utils.py` (`get_totp_code` and its helpers)
against its natural-language specification.

The Python function is shallowly embedded: strings are Lean `String`s
(lists of unicode scalar chars, as in Python), bytes are `Nat` values
below 256, machine words are `Nat` with explicit masking, the wall clock
read (`int(datetime.datetime.now().timestamp())`) is passed as an explicit
`now : Nat` parameter, and every `raise` becomes an `Except` error value.

Modelled standard-library behaviour (the repository calls CPython's
stdlib; the model reproduces it on the character/input domain the claims
use, as documented at each definition):
  * `urllib.parse.urlparse` — scheme and query extraction;
  * `urllib.parse.parse_qsl` — `&`-splitting, dropping of blank values,
    `+`/percent decoding for ASCII bytes;
  * `str.isnumeric` / `int(...)` — ASCII digits plus a table of the
    non-decimal numeric characters exercised by the claims;
  * `base64.b32decode(..., casefold=True)`;
  * `hashlib.sha1/sha256/sha512`, `hmac.new(...).digest()` (FIPS 180-4);
  * binary64 true division `a / b` of two Python ints (correctly rounded
    to nearest, ties to even) followed by `int(...)` truncation.
-/

namespace KSM

/-! ## Generic helpers on lists and characters -/

/-- Split a list at every occurrence of the separator `sep`
(like Python `str.split(sep)` for a one-character separator). -/
def splitOnChar (sep : Char) : List Char → List (List Char)
  | [] => [[]]
  | c :: cs =>
    let rest := splitOnChar sep cs
    if c = sep then
      [] :: rest
    else
      match rest with
      | [] => [[c]]
      | r :: rs => (c :: r) :: rs

/-- Split a list at the first occurrence of `sep`, returning the parts
before and after it; `none` when `sep` does not occur
(like Python `str.split(sep, 1)`). -/
def splitFirstChar (sep : Char) : List Char → Option (List Char × List Char)
  | [] => none
  | c :: cs =>
    if c = sep then some ([], cs)
    else
      match splitFirstChar sep cs with
      | none => none
      | some (a, b) => some (c :: a, b)

/-- Take the part of the list before the first occurrence of `sep`
(the whole list when `sep` does not occur). -/
def takeUntilChar (sep : Char) : List Char → List Char
  | [] => []
  | c :: cs => if c = sep then [] else c :: takeUntilChar sep cs

/-- Does the first list start with the second one? -/
def startsWithL : List Char → List Char → Bool
  | _, [] => true
  | [], _ :: _ => false
  | a :: as, b :: bs => a = b && startsWithL as bs

/-- Does the first list contain the second one as a contiguous run? -/
def hasSubList : List Char → List Char → Bool
  | [], needle => startsWithL [] needle
  | c :: t, needle => startsWithL (c :: t) needle || hasSubList t needle

/-- Character is an ASCII decimal digit `0`-`9`.  This models the
Unicode general category Nd (digits accepted by Python `int(...)`)
restricted to ASCII; claims that quantify over strings carry an ASCII
hypothesis where this restriction matters. -/
def isNdChar (c : Char) : Bool :=
  '0' ≤ c && c ≤ '9'

/-- Character for which Python `str.isnumeric()` is true.  The full
Unicode table is larger; the model covers ASCII (where the numeric
characters are exactly `0`-`9`) together with the superscript and
vulgar-fraction characters used by the claims, which have a Unicode
numeric value but are not decimal digits, so `int(...)` rejects them. -/
def pyIsNumericChar (c : Char) : Bool :=
  isNdChar c || c ∈ ['¹', '²', '³', '¼', '½', '¾']

/-- Python `str.isnumeric()`: nonempty and every character numeric. -/
def pyIsNumericStr (s : String) : Bool :=
  !s.toList.isEmpty && s.toList.all pyIsNumericChar

/-- Decimal value of a list of ASCII digits. -/
def decValueAux : List Char → Nat → Nat
  | [], acc => acc
  | c :: cs, acc => decValueAux cs (acc * 10 + (c.toNat - 48))

/-- Python `int(s)` on a string already known to be nonempty: succeeds
with the decimal value exactly when every character is a decimal digit
(general category Nd; ASCII in this model), otherwise raises
`ValueError`, rendered as `none`. -/
def pyIntOfDigits (s : String) : Option Nat :=
  if s.toList.all isNdChar && !s.toList.isEmpty then
    some (decValueAux s.toList 0)
  else
    none

/-- ASCII uppercase of a string, modelling Python `str.upper()` on the
ASCII domain (Lean `Char.toUpper` maps exactly `a`-`z`). -/
def pyUpper (s : String) : String :=
  ⟨s.toList.map Char.toUpper⟩

/-- ASCII lowercase of a string, modelling Python `str.lower()` on the
ASCII domain. -/
def pyLower (s : String) : String :=
  ⟨s.toList.map Char.toLower⟩

/-- String whose characters are all ASCII. -/
def isAsciiStr (s : String) : Bool :=
  s.toList.all fun c => c.toNat < 128

/-- Big-endian interpretation of a byte list
(Python `int.from_bytes(b, byteorder=big)`). -/
def bytesToNatBE (bs : List Nat) : Nat :=
  bs.foldl (fun acc b => acc * 256 + b) 0

/-- Big-endian encoding of `n` on exactly `w` bytes
(Python `n.to_bytes(w, byteorder=big)`; the caller checks `n < 256^w`). -/
def natToBytesBE : Nat → Nat → List Nat
  | 0, _ => []
  | w + 1, n => natToBytesBE w (n / 256) ++ [n % 256]

/-- Decimal digit character for a value below 10. -/
def digitChar (n : Nat) : Char :=
  Char.ofNat (48 + n)

/-- Decimal digits of `n`, most significant first; `fuel` bounds the
recursion and `n + 1` always suffices. -/
def decCharsAux : Nat → Nat → List Char
  | 0, _ => []
  | fuel + 1, n =>
    if n < 10 then [digitChar n]
    else decCharsAux fuel (n / 10) ++ [digitChar (n % 10)]

/-- Decimal representation of a natural number (Python `str(n)`). -/
def decStr (n : Nat) : String :=
  ⟨decCharsAux (n + 1) n⟩

/-- Python `str.zfill(d)` for unsigned strings: pad on the left with
`0` up to length `d`, leaving longer strings unchanged. -/
def zfill (d : Nat) (s : String) : String :=
  ⟨List.replicate (d - s.toList.length) '0' ++ s.toList⟩

/-! ## Binary64 true division, as performed by CPython `int / int`

CPython's `long_true_divide` returns the IEEE-754 binary64 value nearest
to the exact rational quotient (ties to even).  `get_totp_code` then
truncates with `int(...)`.  The composition is modelled exactly on the
naturals; an overflow of the float range corresponds to the
`OverflowError` CPython raises, checked by the caller against `2 ^ 1024`.
-/

/-- Number of bits of `n` (`0` for `0`); `fuel`-bounded recursion, and
`fuel = n` always suffices. -/
def nbitsAux : Nat → Nat → Nat
  | 0, _ => 0
  | fuel + 1, n => if n = 0 then 0 else nbitsAux fuel (n / 2) + 1

/-- Number of bits of `n`: the least `k` with `n < 2 ^ k`. -/
def nbits (n : Nat) : Nat :=
  nbitsAux n n

/-- Round the rational `p / q` (with `q > 0`) to the nearest integer,
ties to even. -/
def rne (p q : Nat) : Nat :=
  let d := p / q
  let r := p % q
  if 2 * r < q then d
  else if q < 2 * r then d + 1
  else if d % 2 = 0 then d else d + 1

/-- Truncation toward zero of the correctly rounded binary64 quotient of
two naturals: the value of Python `int(a / b)` for ints `a >= 0`,
`b > 0` (when no `OverflowError` intervenes; the caller checks the
result against `2 ^ 1024` for that).  The rounded quotient is
`m * 2 ^ (e - 52)` where `2 ^ e <= a / b < 2 ^ (e + 1)` and `m` is the
52-bit-scaled mantissa rounded to nearest, ties to even. -/
def f64DivTrunc (a b : Nat) : Nat :=
  if a = 0 || b = 0 then 0
  else
    let la : Int := nbits a
    let lb : Int := nbits b
    let e0 : Int := la - lb
    -- `a / b` lies in `(2 ^ (e0 - 1), 2 ^ (e0 + 1))`; pick the exponent
    -- `e` with `2 ^ e <= a / b`.
    let e : Int :=
      if b * 2 ^ e0.toNat ≤ a * 2 ^ (-e0).toNat then e0 else e0 - 1
    let s : Int := 52 - e
    let m :=
      if 0 ≤ s then rne (a * 2 ^ s.toNat) b
      else rne a (b * 2 ^ (-s).toNat)
    if 52 ≤ e then m * 2 ^ (e - 52).toNat
    else m / 2 ^ (52 - e).toNat

/-! ## FIPS 180-4 hash functions and HMAC (RFC 2104)

These model `hashlib.sha1`, `hashlib.sha256`, `hashlib.sha512` and
`hmac.new(key, msg, digestmod).digest()`.  Bytes are naturals below 256,
words are naturals masked to 32 or 64 bits.
-/

/-- Mask to 32 bits. -/
def M32 (x : Nat) : Nat := x &&& 0xFFFFFFFF

/-- Mask to 64 bits. -/
def M64 (x : Nat) : Nat := x &&& 0xFFFFFFFFFFFFFFFF

/-- Rotate a 32-bit word left by `n` (for `0 < n < 32`, `x < 2 ^ 32`). -/
def rotl32 (n x : Nat) : Nat :=
  ((x <<< n) &&& 0xFFFFFFFF) ||| (x >>> (32 - n))

/-- Rotate a 32-bit word right by `n` (for `0 < n < 32`, `x < 2 ^ 32`). -/
def rotr32 (n x : Nat) : Nat :=
  (x >>> n) ||| ((x <<< (32 - n)) &&& 0xFFFFFFFF)

/-- Rotate a 64-bit word right by `n` (for `0 < n < 64`, `x < 2 ^ 64`). -/
def rotr64 (n x : Nat) : Nat :=
  (x >>> n) ||| ((x <<< (64 - n)) &&& 0xFFFFFFFFFFFFFFFF)

/-- Big-endian bytes of a 32-bit word. -/
def w32Bytes (w : Nat) : List Nat :=
  [(w >>> 24) &&& 255, (w >>> 16) &&& 255, (w >>> 8) &&& 255, w &&& 255]

/-- Big-endian bytes of a 64-bit word. -/
def w64Bytes (w : Nat) : List Nat :=
  [(w >>> 56) &&& 255, (w >>> 48) &&& 255, (w >>> 40) &&& 255,
   (w >>> 32) &&& 255, (w >>> 24) &&& 255, (w >>> 16) &&& 255,
   (w >>> 8) &&& 255, w &&& 255]

/-- Split a list into consecutive chunks of size `sz` (`fuel`-bounded;
the list length always suffices as fuel). -/
def chunksAux : Nat → Nat → List Nat → List (List Nat)
  | 0, _, _ => []
  | _, _, [] => []
  | fuel + 1, sz, l => l.take sz :: chunksAux fuel sz (l.drop sz)

/-- Split a byte list into consecutive chunks of size `sz`. -/
def chunks (sz : Nat) (l : List Nat) : List (List Nat) :=
  chunksAux l.length sz l

/-- Merkle–Damgård padding: append `0x80`, zeros, and the bit length on
`lenField` bytes, up to a multiple of `blockSize` bytes. -/
def mdPad (lenField blockSize : Nat) (msg : List Nat) : List Nat :=
  let len := msg.length
  let zeros := (2 * blockSize - lenField - (len + 1) % blockSize) % blockSize
  msg ++ 0x80 :: List.replicate zeros 0 ++ natToBytesBE lenField (8 * len)

/-- Words (big-endian, `w` bytes each) of a byte block. -/
def wordsOfBytes (w : Nat) (block : List Nat) : List Nat :=
  (chunks w block).map bytesToNatBE

/-! ### SHA-1 -/

/-- Round function `f_t` of SHA-1 (FIPS 180-4 §4.1.1). -/
def sha1F (t b c d : Nat) : Nat :=
  if t < 20 then (b &&& c) ||| ((b ^^^ 0xFFFFFFFF) &&& d)
  else if t < 40 then b ^^^ c ^^^ d
  else if t < 60 then (b &&& c) ||| (b &&& d) ||| (c &&& d)
  else b ^^^ c ^^^ d

/-- Round constant `K_t` of SHA-1. -/
def sha1K (t : Nat) : Nat :=
  if t < 20 then 0x5A827999
  else if t < 40 then 0x6ED9EBA1
  else if t < 60 then 0x8F1BBCDC
  else 0xCA62C1D6

/-- Extend the (reversed) message schedule by `n` further words:
`W_t = ROTL1 (W_(t-3) xor W_(t-8) xor W_(t-14) xor W_(t-16))`. -/
def sha1Schedule : Nat → List Nat → List Nat
  | 0, ws => ws
  | n + 1, ws =>
    let w := rotl32 1
      ((ws.getD 2 0) ^^^ (ws.getD 7 0) ^^^ (ws.getD 13 0) ^^^ (ws.getD 15 0))
    sha1Schedule n (w :: ws)

/-- One SHA-1 round on the working state, given `(t, W_t)`. -/
def sha1Round (st : Nat × Nat × Nat × Nat × Nat) (tw : Nat × Nat) :
    Nat × Nat × Nat × Nat × Nat :=
  let (a, b, c, d, e) := st
  let (t, w) := tw
  let temp := M32 (rotl32 5 a + sha1F t b c d + e + sha1K t + w)
  (temp, a, rotl32 30 b, c, d)

/-- SHA-1 compression of one 64-byte block. -/
def sha1Block (h : Nat × Nat × Nat × Nat × Nat) (block : List Nat) :
    Nat × Nat × Nat × Nat × Nat :=
  let ws := (sha1Schedule 64 (wordsOfBytes 4 block).reverse).reverse
  let (a, b, c, d, e) := ((List.range 80).zip ws).foldl sha1Round h
  let (h0, h1, h2, h3, h4) := h
  (M32 (h0 + a), M32 (h1 + b), M32 (h2 + c), M32 (h3 + d), M32 (h4 + e))

/-- SHA-1 digest (20 bytes) of a byte list. -/
def sha1 (msg : List Nat) : List Nat :=
  let st := (chunks 64 (mdPad 8 64 msg)).foldl sha1Block
    (0x67452301, 0xEFCDAB89, 0x98BADCFE, 0x10325476, 0xC3D2E1F0)
  let (h0, h1, h2, h3, h4) := st
  w32Bytes h0 ++ w32Bytes h1 ++ w32Bytes h2 ++ w32Bytes h3 ++ w32Bytes h4

/-! ### SHA-256 -/

/-- Round constants `K_t` of SHA-256 (FIPS 180-4 §4.2.2). -/
def sha256K : List Nat :=
  [0x428a2f98, 0x71374491, 0xb5c0fbcf, 0xe9b5dba5,
   0x3956c25b, 0x59f111f1, 0x923f82a4, 0xab1c5ed5] ++
  [0xd807aa98, 0x12835b01, 0x243185be, 0x550c7dc3,
   0x72be5d74, 0x80deb1fe, 0x9bdc06a7, 0xc19bf174] ++
  [0xe49b69c1, 0xefbe4786, 0x0fc19dc6, 0x240ca1cc,
   0x2de92c6f, 0x4a7484aa, 0x5cb0a9dc, 0x76f988da] ++
  [0x983e5152, 0xa831c66d, 0xb00327c8, 0xbf597fc7,
   0xc6e00bf3, 0xd5a79147, 0x06ca6351, 0x14292967] ++
  [0x27b70a85, 0x2e1b2138, 0x4d2c6dfc, 0x53380d13,
   0x650a7354, 0x766a0abb, 0x81c2c92e, 0x92722c85] ++
  [0xa2bfe8a1, 0xa81a664b, 0xc24b8b70, 0xc76c51a3,
   0xd192e819, 0xd6990624, 0xf40e3585, 0x106aa070] ++
  [0x19a4c116, 0x1e376c08, 0x2748774c, 0x34b0bcb5,
   0x391c0cb3, 0x4ed8aa4a, 0x5b9cca4f, 0x682e6ff3] ++
  [0x748f82ee, 0x78a5636f, 0x84c87814, 0x8cc70208,
   0x90befffa, 0xa4506ceb, 0xbef9a3f7, 0xc67178f2]

/-- Extend the (reversed) SHA-256 message schedule by `n` words:
`W_t = sigma1 (W_(t-2)) + W_(t-7) + sigma0 (W_(t-15)) + W_(t-16)`. -/
def sha256Schedule : Nat → List Nat → List Nat
  | 0, ws => ws
  | n + 1, ws =>
    let w2 := ws.getD 1 0
    let w7 := ws.getD 6 0
    let w15 := ws.getD 14 0
    let w16 := ws.getD 15 0
    let s0 := rotr32 7 w15 ^^^ rotr32 18 w15 ^^^ (w15 >>> 3)
    let s1 := rotr32 17 w2 ^^^ rotr32 19 w2 ^^^ (w2 >>> 10)
    sha256Schedule n (M32 (s1 + w7 + s0 + w16) :: ws)

/-- One SHA-256 round on the working state, given `(K_t, W_t)`. -/
def sha256Round (st : Nat × Nat × Nat × Nat × Nat × Nat × Nat × Nat)
    (kw : Nat × Nat) : Nat × Nat × Nat × Nat × Nat × Nat × Nat × Nat :=
  let (a, b, c, d, e, f, g, h) := st
  let (k, w) := kw
  let S1 := rotr32 6 e ^^^ rotr32 11 e ^^^ rotr32 25 e
  let ch := (e &&& f) ^^^ ((e ^^^ 0xFFFFFFFF) &&& g)
  let temp1 := h + S1 + ch + k + w
  let S0 := rotr32 2 a ^^^ rotr32 13 a ^^^ rotr32 22 a
  let maj := (a &&& b) ^^^ (a &&& c) ^^^ (b &&& c)
  let temp2 := S0 + maj
  (M32 (temp1 + temp2), a, b, c, M32 (d + temp1), e, f, g)

/-- SHA-256 compression of one 64-byte block. -/
def sha256Block (h : Nat × Nat × Nat × Nat × Nat × Nat × Nat × Nat)
    (block : List Nat) : Nat × Nat × Nat × Nat × Nat × Nat × Nat × Nat :=
  let ws := (sha256Schedule 48 (wordsOfBytes 4 block).reverse).reverse
  let (a, b, c, d, e, f, g, hh) := (sha256K.zip ws).foldl sha256Round h
  let (h0, h1, h2, h3, h4, h5, h6, h7) := h
  (M32 (h0 + a), M32 (h1 + b), M32 (h2 + c), M32 (h3 + d),
   M32 (h4 + e), M32 (h5 + f), M32 (h6 + g), M32 (h7 + hh))

/-- SHA-256 digest (32 bytes) of a byte list. -/
def sha256 (msg : List Nat) : List Nat :=
  let st := (chunks 64 (mdPad 8 64 msg)).foldl sha256Block
    (0x6a09e667, 0xbb67ae85, 0x3c6ef372, 0xa54ff53a,
     0x510e527f, 0x9b05688c, 0x1f83d9ab, 0x5be0cd19)
  let (h0, h1, h2, h3, h4, h5, h6, h7) := st
  w32Bytes h0 ++ w32Bytes h1 ++ w32Bytes h2 ++ w32Bytes h3 ++
    w32Bytes h4 ++ w32Bytes h5 ++ w32Bytes h6 ++ w32Bytes h7

/-! ### SHA-512 -/

/-- Round constants `K_t` of SHA-512 (FIPS 180-4 §4.2.3). -/
def sha512K : List Nat :=
  [0x428a2f98d728ae22, 0x7137449123ef65cd,
   0xb5c0fbcfec4d3b2f, 0xe9b5dba58189dbbc] ++
  [0x3956c25bf348b538, 0x59f111f1b605d019,
   0x923f82a4af194f9b, 0xab1c5ed5da6d8118] ++
  [0xd807aa98a3030242, 0x12835b0145706fbe,
   0x243185be4ee4b28c, 0x550c7dc3d5ffb4e2] ++
  [0x72be5d74f27b896f, 0x80deb1fe3b1696b1,
   0x9bdc06a725c71235, 0xc19bf174cf692694] ++
  [0xe49b69c19ef14ad2, 0xefbe4786384f25e3,
   0x0fc19dc68b8cd5b5, 0x240ca1cc77ac9c65] ++
  [0x2de92c6f592b0275, 0x4a7484aa6ea6e483,
   0x5cb0a9dcbd41fbd4, 0x76f988da831153b5] ++
  [0x983e5152ee66dfab, 0xa831c66d2db43210,
   0xb00327c898fb213f, 0xbf597fc7beef0ee4] ++
  [0xc6e00bf33da88fc2, 0xd5a79147930aa725,
   0x06ca6351e003826f, 0x142929670a0e6e70] ++
  [0x27b70a8546d22ffc, 0x2e1b21385c26c926,
   0x4d2c6dfc5ac42aed, 0x53380d139d95b3df] ++
  [0x650a73548baf63de, 0x766a0abb3c77b2a8,
   0x81c2c92e47edaee6, 0x92722c851482353b] ++
  [0xa2bfe8a14cf10364, 0xa81a664bbc423001,
   0xc24b8b70d0f89791, 0xc76c51a30654be30] ++
  [0xd192e819d6ef5218, 0xd69906245565a910,
   0xf40e35855771202a, 0x106aa07032bbd1b8] ++
  [0x19a4c116b8d2d0c8, 0x1e376c085141ab53,
   0x2748774cdf8eeb99, 0x34b0bcb5e19b48a8] ++
  [0x391c0cb3c5c95a63, 0x4ed8aa4ae3418acb,
   0x5b9cca4f7763e373, 0x682e6ff3d6b2b8a3] ++
  [0x748f82ee5defb2fc, 0x78a5636f43172f60,
   0x84c87814a1f0ab72, 0x8cc702081a6439ec] ++
  [0x90befffa23631e28, 0xa4506cebde82bde9,
   0xbef9a3f7b2c67915, 0xc67178f2e372532b] ++
  [0xca273eceea26619c, 0xd186b8c721c0c207,
   0xeada7dd6cde0eb1e, 0xf57d4f7fee6ed178] ++
  [0x06f067aa72176fba, 0x0a637dc5a2c898a6,
   0x113f9804bef90dae, 0x1b710b35131c471b] ++
  [0x28db77f523047d84, 0x32caab7b40c72493,
   0x3c9ebe0a15c9bebc, 0x431d67c49c100d4c] ++
  [0x4cc5d4becb3e42b6, 0x597f299cfc657e2a,
   0x5fcb6fab3ad6faec, 0x6c44198c4a475817]

/-- Extend the (reversed) SHA-512 message schedule by `n` words. -/
def sha512Schedule : Nat → List Nat → List Nat
  | 0, ws => ws
  | n + 1, ws =>
    let w2 := ws.getD 1 0
    let w7 := ws.getD 6 0
    let w15 := ws.getD 14 0
    let w16 := ws.getD 15 0
    let s0 := rotr64 1 w15 ^^^ rotr64 8 w15 ^^^ (w15 >>> 7)
    let s1 := rotr64 19 w2 ^^^ rotr64 61 w2 ^^^ (w2 >>> 6)
    sha512Schedule n (M64 (s1 + w7 + s0 + w16) :: ws)

/-- One SHA-512 round on the working state, given `(K_t, W_t)`. -/
def sha512Round (st : Nat × Nat × Nat × Nat × Nat × Nat × Nat × Nat)
    (kw : Nat × Nat) : Nat × Nat × Nat × Nat × Nat × Nat × Nat × Nat :=
  let (a, b, c, d, e, f, g, h) := st
  let (k, w) := kw
  let S1 := rotr64 14 e ^^^ rotr64 18 e ^^^ rotr64 41 e
  let ch := (e &&& f) ^^^ ((e ^^^ 0xFFFFFFFFFFFFFFFF) &&& g)
  let temp1 := h + S1 + ch + k + w
  let S0 := rotr64 28 a ^^^ rotr64 34 a ^^^ rotr64 39 a
  let maj := (a &&& b) ^^^ (a &&& c) ^^^ (b &&& c)
  let temp2 := S0 + maj
  (M64 (temp1 + temp2), a, b, c, M64 (d + temp1), e, f, g)

/-- SHA-512 compression of one 128-byte block. -/
def sha512Block (h : Nat × Nat × Nat × Nat × Nat × Nat × Nat × Nat)
    (block : List Nat) : Nat × Nat × Nat × Nat × Nat × Nat × Nat × Nat :=
  let ws := (sha512Schedule 64 (wordsOfBytes 8 block).reverse).reverse
  let (a, b, c, d, e, f, g, hh) := (sha512K.zip ws).foldl sha512Round h
  let (h0, h1, h2, h3, h4, h5, h6, h7) := h
  (M64 (h0 + a), M64 (h1 + b), M64 (h2 + c), M64 (h3 + d),
   M64 (h4 + e), M64 (h5 + f), M64 (h6 + g), M64 (h7 + hh))

/-- SHA-512 digest (64 bytes) of a byte list. -/
def sha512 (msg : List Nat) : List Nat :=
  let st := (chunks 128 (mdPad 16 128 msg)).foldl sha512Block
    (0x6a09e667f3bcc908, 0xbb67ae8584caa73b, 0x3c6ef372fe94f82b,
     0xa54ff53a5f1d36f1, 0x510e527fade682d1, 0x9b05688c2b3e6c1f,
     0x1f83d9abfb41bd6b, 0x5be0cd19137e2179)
  let (h0, h1, h2, h3, h4, h5, h6, h7) := st
  w64Bytes h0 ++ w64Bytes h1 ++ w64Bytes h2 ++ w64Bytes h3 ++
    w64Bytes h4 ++ w64Bytes h5 ++ w64Bytes h6 ++ w64Bytes h7

/-! ### Hash selection and HMAC -/

/-- The three hash functions `get_totp_code` can select
(`hashlib.sha1`, `hashlib.sha256`, `hashlib.sha512`). -/
inductive HashAlg where
  | sha1
  | sha256
  | sha512
deriving DecidableEq

/-- Digest of a byte list under the selected hash function. -/
def hashBytes : HashAlg → List Nat → List Nat
  | .sha1, msg => sha1 msg
  | .sha256, msg => sha256 msg
  | .sha512, msg => sha512 msg

/-- Input block size in bytes of the selected hash function
(`hmac` uses `digestmod.block_size`). -/
def hashBlockSize : HashAlg → Nat
  | .sha1 => 64
  | .sha256 => 64
  | .sha512 => 128

/-- HMAC digest (RFC 2104): `H ((K xor opad) ++ H ((K xor ipad) ++ msg))`
with the key hashed when longer than a block and zero-padded to a block. -/
def hmacDigest (alg : HashAlg) (key msg : List Nat) : List Nat :=
  let bs := hashBlockSize alg
  let k0 := if bs < key.length then hashBytes alg key else key
  let kp := k0 ++ List.replicate (bs - k0.length) 0
  hashBytes alg
    ((kp.map (· ^^^ 0x5C)) ++ hashBytes alg ((kp.map (· ^^^ 0x36)) ++ msg))

/-! ## Base32 decoding (`base64.b32decode(s, casefold=True)`)

Faithful to CPython's implementation: the length must be a multiple
of 8 (else `binascii.Error`); trailing `=` is stripped; every remaining
character must be in the RFC 4648 alphabet `A`-`Z`, `2`-`7` (checked
before the pad-count test, as in CPython); the number of stripped pad
characters must be 0, 1, 3, 4 or 6; full 8-character quanta give 5
bytes and the final partial quantum gives the leftover bytes.  `none`
models a raised `binascii.Error`.
-/

/-- Value of one base32 alphabet character (`A`-`Z` are 0-25, `2`-`7`
are 26-31), `none` for any other character (including `=`). -/
def b32rev (c : Char) : Option Nat :=
  if 65 ≤ c.toNat && c.toNat ≤ 90 then some (c.toNat - 65)
  else if 50 ≤ c.toNat && c.toNat ≤ 55 then some (c.toNat - 24)
  else none

/-- Look up all characters in the base32 alphabet, failing on the first
invalid one (the decode loop of CPython's `b32decode`). -/
def b32Vals : List Char → Option (List Nat)
  | [] => some []
  | c :: cs =>
    match b32rev c, b32Vals cs with
    | some v, some vs => some (v :: vs)
    | _, _ => none

/-- Strip trailing `=` characters (Python `bytes.rstrip(b'=')`). -/
def rstripEq (l : List Char) : List Char :=
  ((l.reverse.dropWhile fun c => c = '=').reverse)

/-- Decode the 5-bit values of the stripped input into bytes
(`fuel`-bounded; the list length always suffices): full quanta of 8
values yield 5 bytes; the trailing partial quantum is shifted by the
pad count and contributes `(43 - 5 * pad) / 8` bytes. -/
def b32AssembleAux : Nat → Nat → List Nat → List Nat
  | 0, _, _ => []
  | fuel + 1, padchars, vals =>
    if vals.isEmpty then []
    else
      let q := vals.take 8
      let acc := q.foldl (fun a v => a <<< 5 + v) 0
      if q.length = 8 then
        natToBytesBE 5 acc ++ b32AssembleAux fuel padchars (vals.drop 8)
      else
        (natToBytesBE 5 (acc <<< (5 * padchars))).take ((43 - 5 * padchars) / 8)

/-- Decode the 5-bit values of the stripped input into bytes. -/
def b32Assemble (padchars : Nat) (vals : List Nat) : List Nat :=
  b32AssembleAux vals.length padchars vals

/-- Python `base64.b32decode(s, casefold=True)`; `none` is a raised
`binascii.Error`. -/
def b32decode (s : List Char) : Option (List Nat) :=
  if s.length % 8 ≠ 0 then none
  else
    let su := s.map Char.toUpper
    let stripped := rstripEq su
    let padchars := su.length - stripped.length
    match b32Vals stripped with
    | none => none
    | some vals =>
      if padchars = 0 ∨ padchars = 1 ∨ padchars = 3 ∨ padchars = 4 ∨
          padchars = 6 then
        some (b32Assemble padchars vals)
      else none

/-! ## URI parsing (`urllib.parse.urlparse` / `parse_qsl`)

Only the pieces `get_totp_code` consumes are modelled: the (lowercased)
scheme and the query component, and the `parse_qsl` splitting of the
query.  Percent-decoding is modelled for ASCII `%XX` escapes (multi-byte
UTF-8 sequences do not occur in any claim). -/

/-- Character allowed in a URL scheme
(`urllib.parse.scheme_chars`: letters, digits, `+`, `-`, `.`). -/
def isSchemeChar (c : Char) : Bool :=
  ('a' ≤ c && c ≤ 'z') || ('A' ≤ c && c ≤ 'Z') ||
    ('0' ≤ c && c ≤ '9') || c = '+' || c = '-' || c = '.'

/-- Scheme of a URL as `urlparse` reports it: the part before the first
`:` when that part is nonempty and made of scheme characters, lowercased;
otherwise the empty string. -/
def urlScheme (url : String) : String :=
  match splitFirstChar ':' url.toList with
  | none => ""
  | some (before, _) =>
    if !before.isEmpty && before.all isSchemeChar then
      pyLower ⟨before⟩
    else ""

/-- Query component of a URL as `urlparse` reports it: the part after
the first `?` of the part before the first `#`. -/
def urlQuery (url : String) : String :=
  match splitFirstChar '?' (takeUntilChar '#' url.toList) with
  | none => ""
  | some (_, q) => ⟨q⟩

/-- Value of one ASCII hex digit, `none` otherwise. -/
def hexVal (c : Char) : Option Nat :=
  if '0' ≤ c && c ≤ '9' then some (c.toNat - 48)
  else if 'a' ≤ c && c ≤ 'f' then some (c.toNat - 87)
  else if 'A' ≤ c && c ≤ 'F' then some (c.toNat - 55)
  else none

/-- Python `urllib.parse.unquote` restricted to single-byte (ASCII)
escapes: the input is split on `%`; a segment starting with two hex
digits whose byte is below `0x80` decodes to that character followed by
the rest of the segment, any other segment is kept verbatim behind its
`%` (exactly CPython's behaviour for malformed escapes; multi-byte
UTF-8 escape sequences are outside the modelled domain and no claim
uses them).  `parse_qsl` applies this after replacing `+` by a space. -/
def unquoteASCII (l : List Char) : List Char :=
  match splitOnChar '%' l with
  | [] => []
  | p0 :: parts =>
    p0 ++ parts.flatMap fun part =>
      match part with
      | a :: b :: rest =>
        match hexVal a, hexVal b with
        | some ha, some hb =>
          if ha * 16 + hb < 128 then Char.ofNat (ha * 16 + hb) :: rest
          else '%' :: part
        | _, _ => '%' :: part
      | _ => '%' :: part

/-- Decoding `parse_qsl` applies to each name and value:
`unquote(s.replace('+', ' '))`. -/
def qslUnquote (s : List Char) : String :=
  ⟨unquoteASCII (s.map fun c => if c = '+' then ' ' else c)⟩

/-- Python `urllib.parse.parse_qsl(qs)` with default arguments: split
on `&`, skip empty fields, skip fields without `=` and fields with an
empty value (`keep_blank_values=False`), percent-decode names and
values. -/
def parseQsl (qs : String) : List (String × String) :=
  (splitOnChar '&' qs.toList).filterMap fun field =>
    if field.isEmpty then none
    else
      match splitFirstChar '=' field with
      | none => none
      | some (name, value) =>
        if value.isEmpty then none
        else some (qslUnquote name, qslUnquote value)

/-! ## The TOTP generator (`get_totp_code`, utils.py lines 106-177) -/

/-- Result object of `get_totp_code` (class `TotpCode`). -/
structure TotpCode where
  code : String
  time_left : Nat
  period : Nat
deriving DecidableEq

/-- Exceptions `get_totp_code` can raise, with the spec's names.
`invalidScheme`, `missingSecret`, `unsupportedAlgorithm` and
`invalidDigits` are the four explicit `ValueError`s; `invalidSecret` is
the `binascii.Error` escaping from `base64.b32decode`; `valueError` is
the `ValueError` escaping from `int(v)` on a numeric-but-not-decimal
query value; `overflow` is the `OverflowError` from float division or
`int.to_bytes` on an astronomically large time step. -/
inductive TotpErr where
  | invalidScheme
  | missingSecret
  | unsupportedAlgorithm (algorithm : String)
  | invalidDigits
  | invalidSecret
  | valueError
  | overflow
deriving DecidableEq

/-- Message text of each error, as formatted at the raise sites. -/
def totpErrMessage : TotpErr → String
  | .invalidScheme => "Not an otpauth URI"
  | .missingSecret => "TOTP secret not found in URI"
  | .unsupportedAlgorithm a =>
    "Invalid value \"" ++ a ++
      "\" for TOTP algorithm, must be SHA1, SHA256 or SHA512"
  | .invalidDigits => "TOTP Digits may only be 6, 7, or 8"
  | .invalidSecret => "Incorrect padding"
  | .valueError => "invalid literal for int() with base 10"
  | .overflow => "int too big to convert"

/-- Mutable locals of the query-parsing loop, with their initial
values from utils.py lines 121-125. -/
structure RawParams where
  secret : Option String
  algorithm : String
  digits : Nat
  period : Nat
  counter : Nat
deriving DecidableEq

/-- Initial values: `secret=None`, `algorithm='SHA1'`, `digits=6`,
`period=30`, `counter=0`. -/
def initParams : RawParams :=
  ⟨none, "SHA1", 6, 30, 0⟩

/-- Python `int(v) if v.isnumeric() and int(v) > 0 else old`:
keeps `old` when `v` is not numeric or its value is zero, raises
`ValueError` (the `error` case) when `v` is numeric but not a string of
decimal digits, and otherwise yields the parsed positive value. -/
def pyNumParam (v : String) (old : Nat) : Except TotpErr Nat :=
  if pyIsNumericStr v then
    match pyIntOfDigits v with
    | some n => .ok (if 0 < n then n else old)
    | none => .error .valueError
  else .ok old

/-- One iteration of the `for k, v in parse.parse_qsl(comp.query)`
loop (utils.py lines 128-138): recognized keys overwrite the state,
numeric keys through the guarded coercion, unknown keys are ignored. -/
def applyParam (st : RawParams) (kv : String × String) :
    Except TotpErr RawParams :=
  let (k, v) := kv
  if k = "secret" then .ok { st with secret := some v }
  else if k = "algorithm" then .ok { st with algorithm := v }
  else if k = "digits" then
    (pyNumParam v st.digits).map fun d => { st with digits := d }
  else if k = "period" then
    (pyNumParam v st.period).map fun p => { st with period := p }
  else if k = "counter" then
    (pyNumParam v st.counter).map fun c => { st with counter := c }
  else .ok st

/-- Decidable equality of `Except` values with decidable components. -/
instance {ε α : Type} [DecidableEq ε] [DecidableEq α] :
    DecidableEq (Except ε α) := fun a b =>
  match a, b with
  | .error x, .error y =>
    match decEq x y with
    | .isTrue h => .isTrue (h ▸ rfl)
    | .isFalse h => .isFalse fun hh => h (Except.error.inj hh)
  | .ok x, .ok y =>
    match decEq x y with
    | .isTrue h => .isTrue (h ▸ rfl)
    | .isFalse h => .isFalse fun hh => h (Except.ok.inj hh)
  | .error _, .ok _ => .isFalse fun hh => Except.noConfusion hh
  | .ok _, .error _ => .isFalse fun hh => Except.noConfusion hh

/-- The whole query-parsing loop, stopping at the first raise. -/
def paramFold : List (String × String) → RawParams →
    Except TotpErr RawParams
  | [], st => .ok st
  | kv :: rest, st =>
    match applyParam st kv with
    | .error e => .error e
    | .ok st1 => paramFold rest st1

/-- Validated parameters after utils.py lines 140-156. -/
structure TotpParams where
  secret : String
  alg : HashAlg
  digits : Nat
  period : Nat
  counter : Nat
deriving DecidableEq

/-- Scheme check, query parsing and parameter validation of
`get_totp_code` (utils.py lines 116-156): reject a non-`otpauth`
scheme, run the query loop, require a nonempty secret, map the
uppercased algorithm name to a hash function (raising with the
uppercased name otherwise), and require `digits` in {6, 7, 8}. -/
def parseTotpParams (url : String) : Except TotpErr TotpParams :=
  if urlScheme url ≠ "otpauth" then .error .invalidScheme
  else
    match paramFold (parseQsl (urlQuery url)) initParams with
    | .error e => .error e
    | .ok st =>
      match st.secret with
      | none => .error .missingSecret
      | some s =>
        if s = "" then .error .missingSecret
        else
          let algU := pyUpper st.algorithm
          let alg? :=
            if algU = "SHA1" then some HashAlg.sha1
            else if algU = "SHA256" then some HashAlg.sha256
            else if algU = "SHA512" then some HashAlg.sha512
            else none
          match alg? with
          | none => .error (.unsupportedAlgorithm algU)
          | some alg =>
            if st.digits = 6 ∨ st.digits = 7 ∨ st.digits = 8 then
              .ok ⟨s, alg, st.digits, st.period, st.counter⟩
            else .error .invalidDigits

/-- Padding of the secret (utils.py lines 160-163): when
`len(secret) % 8` is 2, 4, 5 or 7, append `'='` up to the next
multiple of 8. -/
def padSecret (s : String) : String :=
  let rem := s.toList.length % 8
  if rem = 2 ∨ rem = 4 ∨ rem = 5 ∨ rem = 7 then
    ⟨s.toList ++ List.replicate (8 - rem) '='⟩
  else s

/-- Dynamic truncation (utils.py lines 169-172, RFC 4226 §5.3):
`offset` is the low nibble of the last digest byte, the 4 bytes there
have the top bit of the first cleared and are read big-endian. -/
def dynTrunc (digest : List Nat) : Nat :=
  let offset := digest.getLastD 0 &&& 0x0f
  let base :=
    match (digest.drop offset).take 4 with
    | [] => []
    | b0 :: rest => (b0 &&& 0x7f) :: rest
  bytesToNatBE base

/-- Computation of the code from validated parameters (utils.py lines
158-177).  The moving factor is the counter when positive, else the
truncated wall-clock time `now`; the time step is the binary64 true
division `tm_base / period` truncated by `int(...)` — a quotient
rounding to `2 ^ 1024` or more is the `OverflowError` of the division
itself, one of `2 ^ 64` or more is the `OverflowError` of
`int(tm).to_bytes(8, byteorder=big)`.  The secret is padded,
base32-decoded, HMAC-ed with the 8-byte big-endian time step, and
dynamically truncated; `code` is the truncation modulo `10 ^ digits`,
zero-filled; `time_left` is `period - tm_base % period`. -/
def totpCompute (now : Nat) (p : TotpParams) : Except TotpErr TotpCode :=
  let tmBase := if 0 < p.counter then p.counter else now
  let tm := f64DivTrunc tmBase p.period
  if 2 ^ 1024 ≤ tm then .error .overflow
  else
    match b32decode (padSecret p.secret).toList with
    | none => .error .invalidSecret
    | some key =>
      if 2 ^ 64 ≤ tm then .error .overflow
      else
        let msg := natToBytesBE 8 tm
        let digest := hmacDigest p.alg key msg
        let codeInt := dynTrunc digest
        let code := zfill p.digits (decStr (codeInt % 10 ^ p.digits))
        let elapsed := tmBase % p.period
        .ok ⟨code, p.period - elapsed, p.period⟩

/-- The function `get_totp_code(url)` of utils.py, with the single
wall-clock read `int(datetime.datetime.now().timestamp())` passed in as
`now`. -/
def get_totp_code (now : Nat) (url : String) : Except TotpErr TotpCode :=
  match parseTotpParams url with
  | .error e => .error e
  | .ok p => totpCompute now p

/-- Modelled from the spec: step 7 of §4.1 reads "Compute
`time_step = floor(moving_factor / period)`", an exact integer floor
division.  This variant of `totpCompute` follows the spec's words; the
source instead truncates a binary64 quotient.  It is compared with the
source-faithful `totpCompute` to exhibit the divergence. -/
def totpComputeFloorSpec (now : Nat) (p : TotpParams) :
    Except TotpErr TotpCode :=
  let tmBase := if 0 < p.counter then p.counter else now
  let tm := tmBase / p.period
  if 2 ^ 1024 ≤ tm then .error .overflow
  else
    match b32decode (padSecret p.secret).toList with
    | none => .error .invalidSecret
    | some key =>
      if 2 ^ 64 ≤ tm then .error .overflow
      else
        let msg := natToBytesBE 8 tm
        let digest := hmacDigest p.alg key msg
        let codeInt := dynTrunc digest
        let code := zfill p.digits (decStr (codeInt % 10 ^ p.digits))
        let elapsed := tmBase % p.period
        .ok ⟨code, p.period - elapsed, p.period⟩

/-- Modelled from the spec: `get_totp_code` with the spec's exact floor
time step. -/
def get_totp_code_floor_spec (now : Nat) (url : String) :
    Except TotpErr TotpCode :=
  match parseTotpParams url with
  | .error e => .error e
  | .ok p => totpComputeFloorSpec now p

/-! ## Supporting lemmas -/

/-- Output length in bytes of each hash function. -/
def hashOutLen : HashAlg → Nat
  | .sha1 => 20
  | .sha256 => 32
  | .sha512 => 64

theorem w32Bytes_byte_le (w : Nat) : ∀ b ∈ w32Bytes w, b ≤ 255 := by
  intro b hb
  simp only [w32Bytes, List.mem_cons, List.not_mem_nil, or_false] at hb
  rcases hb with rfl | rfl | rfl | rfl <;> exact Nat.and_le_right

theorem w64Bytes_byte_le (w : Nat) : ∀ b ∈ w64Bytes w, b ≤ 255 := by
  intro b hb
  simp only [w64Bytes, List.mem_cons, List.not_mem_nil, or_false] at hb
  rcases hb with rfl | rfl | rfl | rfl | rfl | rfl | rfl | rfl <;>
    exact Nat.and_le_right

theorem sha1_length (msg : List Nat) : (sha1 msg).length = 20 := by
  simp [sha1, w32Bytes]

theorem sha256_length (msg : List Nat) : (sha256 msg).length = 32 := by
  simp [sha256, w32Bytes]

theorem sha512_length (msg : List Nat) : (sha512 msg).length = 64 := by
  simp [sha512, w64Bytes]

theorem sha1_byte_le (msg : List Nat) : ∀ b ∈ sha1 msg, b ≤ 255 := by
  intro b hb
  simp only [sha1, List.append_assoc, List.mem_append] at hb
  rcases hb with hb | hb | hb | hb | hb <;> exact w32Bytes_byte_le _ _ hb

theorem sha256_byte_le (msg : List Nat) : ∀ b ∈ sha256 msg, b ≤ 255 := by
  intro b hb
  simp only [sha256, List.append_assoc, List.mem_append] at hb
  rcases hb with hb | hb | hb | hb | hb | hb | hb | hb <;>
    exact w32Bytes_byte_le _ _ hb

theorem sha512_byte_le (msg : List Nat) : ∀ b ∈ sha512 msg, b ≤ 255 := by
  intro b hb
  simp only [sha512, List.append_assoc, List.mem_append] at hb
  rcases hb with hb | hb | hb | hb | hb | hb | hb | hb <;>
    exact w64Bytes_byte_le _ _ hb

theorem hashBytes_length (alg : HashAlg) (msg : List Nat) :
    (hashBytes alg msg).length = hashOutLen alg := by
  cases alg <;>
    simp [hashBytes, hashOutLen, sha1_length, sha256_length, sha512_length]

theorem hashBytes_byte_le (alg : HashAlg) (msg : List Nat) :
    ∀ b ∈ hashBytes alg msg, b ≤ 255 := by
  cases alg with
  | sha1 => exact sha1_byte_le msg
  | sha256 => exact sha256_byte_le msg
  | sha512 => exact sha512_byte_le msg

theorem hmacDigest_length (alg : HashAlg) (key msg : List Nat) :
    (hmacDigest alg key msg).length = hashOutLen alg := by
  simp [hmacDigest, hashBytes_length]

theorem hmacDigest_byte_le (alg : HashAlg) (key msg : List Nat) :
    ∀ b ∈ hmacDigest alg key msg, b ≤ 255 := by
  simp only [hmacDigest]
  exact hashBytes_byte_le alg _

theorem hashOutLen_ge (alg : HashAlg) : 20 ≤ hashOutLen alg := by
  cases alg <;> simp [hashOutLen]

theorem list_length_four {α : Type} {l : List α} (h : l.length = 4) :
    ∃ a b c d, l = [a, b, c, d] := by
  rcases l with _ | ⟨a, _ | ⟨b, _ | ⟨c, _ | ⟨d, _ | ⟨e, t⟩⟩⟩⟩⟩ <;>
    simp only [List.length_nil, List.length_cons] at h
  · omega
  · omega
  · omega
  · omega
  · exact ⟨a, b, c, d, rfl⟩
  · omega

theorem dynTrunc_lt_two_pow_31 (digest : List Nat) (hlen : 20 ≤ digest.length)
    (hb : ∀ x ∈ digest, x ≤ 255) : dynTrunc digest < 2 ^ 31 := by
  simp only [dynTrunc]
  set off := digest.getLastD 0 &&& 0x0f with hoff
  have hoff15 : off ≤ 15 := Nat.and_le_right
  have hlen4 : ((digest.drop off).take 4).length = 4 := by
    simp only [List.length_take, List.length_drop]
    omega
  obtain ⟨a, b, c, d, habcd⟩ := list_length_four hlen4
  have hmem : ∀ x ∈ (digest.drop off).take 4, x ≤ 255 := fun x hx =>
    hb x (List.drop_subset _ _ (List.take_subset _ _ hx))
  rw [habcd] at hmem
  have hub : b ≤ 255 := hmem b (by simp)
  have huc : c ≤ 255 := hmem c (by simp)
  have hud : d ≤ 255 := hmem d (by simp)
  have hua : a &&& 0x7f ≤ 127 := Nat.and_le_right
  rw [habcd]
  simp only [bytesToNatBE, List.foldl]
  omega

theorem pyNumParam_pos {v : String} {old n : Nat}
    (h : pyNumParam v old = .ok n) (hold : 0 < old) : 0 < n := by
  simp only [pyNumParam] at h
  split at h
  · split at h
    · injection h with h
      subst h
      split
      · assumption
      · exact hold
    · exact Except.noConfusion h
  · injection h with h
    subst h
    exact hold

theorem applyParam_period_pos {st st1 : RawParams} {kv : String × String}
    (h : applyParam st kv = .ok st1) (hp : 0 < st.period) : 0 < st1.period := by
  simp only [applyParam] at h
  split at h
  · injection h with h; subst h; exact hp
  · split at h
    · injection h with h; subst h; exact hp
    · split at h
      · cases hnum : pyNumParam kv.2 st.digits with
        | error e => rw [hnum] at h; exact Except.noConfusion h
        | ok d =>
          rw [hnum] at h
          injection h with h; subst h; exact hp
      · split at h
        · cases hnum : pyNumParam kv.2 st.period with
          | error e => rw [hnum] at h; exact Except.noConfusion h
          | ok d =>
            rw [hnum] at h
            injection h with h; subst h
            exact pyNumParam_pos hnum hp
        · split at h
          · cases hnum : pyNumParam kv.2 st.counter with
            | error e => rw [hnum] at h; exact Except.noConfusion h
            | ok d =>
              rw [hnum] at h
              injection h with h; subst h; exact hp
          · injection h with h; subst h; exact hp

theorem paramFold_period_pos :
    ∀ (pairs : List (String × String)) (st st' : RawParams),
      paramFold pairs st = .ok st' → 0 < st.period → 0 < st'.period := by
  intro pairs
  induction pairs with
  | nil =>
    intro st st' h hp
    injection h with h
    subst h
    exact hp
  | cons kv rest ih =>
    intro st st' h hp
    simp only [paramFold] at h
    cases happ : applyParam st kv with
    | error e => rw [happ] at h; exact Except.noConfusion h
    | ok st1 =>
      rw [happ] at h
      exact ih st1 st' h (applyParam_period_pos happ hp)

theorem parseTotpParams_ok_shape {url : String} {p : TotpParams}
    (h : parseTotpParams url = .ok p) :
    ∃ st, paramFold (parseQsl (urlQuery url)) initParams = .ok st ∧
      p.digits = st.digits ∧ p.period = st.period ∧ p.counter = st.counter ∧
      (p.digits = 6 ∨ p.digits = 7 ∨ p.digits = 8) := by
  simp only [parseTotpParams] at h
  by_cases hs : urlScheme url = "otpauth"
  · rw [if_neg (by simp [hs])] at h
    cases hfold : paramFold (parseQsl (urlQuery url)) initParams with
    | error e => rw [hfold] at h; exact Except.noConfusion h
    | ok st =>
      rw [hfold] at h
      dsimp only at h
      cases hsec : st.secret with
      | none => rw [hsec] at h; exact Except.noConfusion h
      | some s =>
        rw [hsec] at h
        dsimp only at h
        by_cases hse : s = ""
        · rw [if_pos hse] at h; exact Except.noConfusion h
        · rw [if_neg hse] at h
          by_cases h1 : pyUpper st.algorithm = "SHA1"
          case pos =>
            rw [if_pos h1] at h
            dsimp only at h
            by_cases hd : st.digits = 6 ∨ st.digits = 7 ∨ st.digits = 8
            · rw [if_pos hd] at h
              injection h with h
              subst h
              exact ⟨st, rfl, rfl, rfl, rfl, hd⟩
            · rw [if_neg hd] at h; exact Except.noConfusion h
          case neg =>
            rw [if_neg h1] at h
            by_cases h2 : pyUpper st.algorithm = "SHA256"
            case pos =>
              rw [if_pos h2] at h
              dsimp only at h
              by_cases hd : st.digits = 6 ∨ st.digits = 7 ∨ st.digits = 8
              · rw [if_pos hd] at h
                injection h with h
                subst h
                exact ⟨st, rfl, rfl, rfl, rfl, hd⟩
              · rw [if_neg hd] at h; exact Except.noConfusion h
            case neg =>
              rw [if_neg h2] at h
              by_cases h3 : pyUpper st.algorithm = "SHA512"
              case pos =>
                rw [if_pos h3] at h
                dsimp only at h
                by_cases hd : st.digits = 6 ∨ st.digits = 7 ∨ st.digits = 8
                · rw [if_pos hd] at h
                  injection h with h
                  subst h
                  exact ⟨st, rfl, rfl, rfl, rfl, hd⟩
                · rw [if_neg hd] at h; exact Except.noConfusion h
              case neg =>
                rw [if_neg h3] at h
                dsimp only at h
                exact Except.noConfusion h
  · rw [if_pos hs] at h
    exact Except.noConfusion h

theorem parseTotpParams_ok {url : String} {p : TotpParams}
    (h : parseTotpParams url = .ok p) :
    0 < p.period ∧ (p.digits = 6 ∨ p.digits = 7 ∨ p.digits = 8) := by
  obtain ⟨st, hfold, _, hper, _, hd⟩ := parseTotpParams_ok_shape h
  refine ⟨?_, hd⟩
  rw [hper]
  exact paramFold_period_pos _ _ _ hfold (by decide)

theorem totpCompute_ok {now : Nat} {p : TotpParams} {r : TotpCode}
    (h : totpCompute now p = .ok r) :
    ∃ key, b32decode (padSecret p.secret).toList = some key ∧
      r = ⟨zfill p.digits (decStr (dynTrunc (hmacDigest p.alg key
            (natToBytesBE 8 (f64DivTrunc
              (if 0 < p.counter then p.counter else now) p.period))) %
            10 ^ p.digits)),
          p.period - (if 0 < p.counter then p.counter else now) % p.period,
          p.period⟩ := by
  simp only [totpCompute] at h
  by_cases hov : 2 ^ 1024 ≤ f64DivTrunc
      (if 0 < p.counter then p.counter else now) p.period
  · rw [if_pos hov] at h; exact Except.noConfusion h
  · rw [if_neg hov] at h
    cases hkey : b32decode (padSecret p.secret).toList with
    | none => rw [hkey] at h; exact Except.noConfusion h
    | some key =>
      rw [hkey] at h
      dsimp only at h
      by_cases hov2 : 2 ^ 64 ≤ f64DivTrunc
          (if 0 < p.counter then p.counter else now) p.period
      · rw [if_pos hov2] at h; exact Except.noConfusion h
      · rw [if_neg hov2] at h
        injection h with h
        exact ⟨key, rfl, h.symm⟩

theorem decCharsAux_length_le :
    ∀ (fuel n d : Nat), 0 < d → n < 10 ^ d →
      (decCharsAux fuel n).length ≤ d := by
  intro fuel
  induction fuel with
  | zero => intro n d hd _; simp [decCharsAux]
  | succ fuel ih =>
    intro n d hd hn
    simp only [decCharsAux]
    split
    · simpa using hd
    · next h10 =>
      have hd2 : 2 ≤ d := by
        by_contra hcon
        have hd1 : d = 1 := by omega
        subst hd1
        simp only [pow_one] at hn
        omega
      rw [List.length_append, List.length_cons, List.length_nil]
      have hdiv : n / 10 < 10 ^ (d - 1) := by
        rw [Nat.div_lt_iff_lt_mul (by norm_num)]
        calc n < 10 ^ d := hn
        _ = 10 ^ (d - 1) * 10 := by
          rw [← pow_succ]
          congr 1
          omega
      have := ih (n / 10) (d - 1) (by omega) hdiv
      omega

theorem zfill_decStr_length {d n : Nat} (hd : 0 < d) (hn : n < 10 ^ d) :
    (zfill d (decStr n)).length = d := by
  have hle : (decCharsAux (n + 1) n).length ≤ d :=
    decCharsAux_length_le (n + 1) n d hd hn
  simp only [zfill, decStr, String.length]
  simp only [String.toList]
  rw [List.length_append, List.length_replicate]
  omega

/-- Claim C9: for every digest produced by HMAC with SHA1, SHA256 or
SHA512, the dynamic-truncation step is in bounds: the digest has at
least 20 bytes, the offset `digest[-1] &&& 0x0f` is at most 15, the
4-byte slice at the offset is fully available, and the truncated
integer is below `2 ^ 31`. -/
theorem totp_dynamic_truncation_in_bounds (alg : HashAlg)
    (key msg : List Nat) :
    20 ≤ (hmacDigest alg key msg).length ∧
    (hmacDigest alg key msg).getLastD 0 &&& 0x0f ≤ 15 ∧
    ((hmacDigest alg key msg).getLastD 0 &&& 0x0f) + 4 ≤
      (hmacDigest alg key msg).length ∧
    dynTrunc (hmacDigest alg key msg) < 2 ^ 31 := by
  have hlen : (hmacDigest alg key msg).length = hashOutLen alg :=
    hmacDigest_length alg key msg
  have h20 : 20 ≤ (hmacDigest alg key msg).length := by
    rw [hlen]; exact hashOutLen_ge alg
  have hoff : (hmacDigest alg key msg).getLastD 0 &&& 0x0f ≤ 15 :=
    Nat.and_le_right
  exact ⟨h20, hoff, by omega,
    dynTrunc_lt_two_pow_31 _ h20 (hmacDigest_byte_le alg key msg)⟩

/-- Claim C5: whenever `get_totp_code` returns a result computed from
wall-clock time (the parsed counter is zero, which is the case exactly
when no positive `counter` parameter was supplied), the returned
`time_left` satisfies `1 <= time_left <= period`. -/
theorem totp_time_left_in_period {now : Nat} {url : String}
    {p : TotpParams} {r : TotpCode} (hp : parseTotpParams url = .ok p)
    (hc : p.counter = 0) (h : get_totp_code now url = .ok r) :
    1 ≤ r.time_left ∧ r.time_left ≤ r.period := by
  simp only [get_totp_code, hp] at h
  obtain ⟨key, hkey, rfl⟩ := totpCompute_ok h
  have hper := (parseTotpParams_ok hp).1
  dsimp only
  rw [hc]
  simp only [Nat.lt_irrefl, if_false]
  have := Nat.mod_lt now hper
  omega

set_option maxRecDepth 10000 in
/-- Witness for C5 at a concrete URI and clock: `now = 77`, period 30,
`time_left = 13` lies in `[1, 30]`. -/
theorem totp_time_left_in_period_witness :
    1 ≤ (TotpCode.mk "092045" 13 30).time_left ∧
      (TotpCode.mk "092045" 13 30).time_left ≤
        (TotpCode.mk "092045" 13 30).period :=
  @totp_time_left_in_period 77
    "otpauth://totp/a?secret=GEZDGNBVGY3TQOJQ"
    ⟨"GEZDGNBVGY3TQOJQ", .sha1, 6, 30, 0⟩
    ⟨"092045", 13, 30⟩
    (by decide) rfl (by decide)

/-- Claim C6: whenever `get_totp_code` returns a result, the length of
the `code` string equals the validated `digits` value (left zero-padded
by `zfill`). -/
theorem totp_code_length_eq_digits {now : Nat} {url : String}
    {p : TotpParams} {r : TotpCode} (hp : parseTotpParams url = .ok p)
    (h : get_totp_code now url = .ok r) :
    r.code.length = p.digits := by
  simp only [get_totp_code, hp] at h
  obtain ⟨key, hkey, rfl⟩ := totpCompute_ok h
  obtain ⟨hper, hd⟩ := parseTotpParams_ok hp
  dsimp only
  refine zfill_decStr_length ?_ (Nat.mod_lt _ ?_)
  · rcases hd with h6 | h7 | h8 <;> omega
  · exact pow_pos (by norm_num) p.digits

set_option maxRecDepth 10000 in
/-- Witness for C6 at a concrete URI: 8 digits requested, the returned
code has 8 characters. -/
theorem totp_code_length_eq_digits_witness :
    (TotpCode.mk "13263420" 1 30).code.length =
      (TotpParams.mk "GEZDGNBVGY3TQOJQ" .sha1 8 30 59).digits :=
  @totp_code_length_eq_digits 0
    "otpauth://totp/a?secret=GEZDGNBVGY3TQOJQ&digits=8&counter=59"
    ⟨"GEZDGNBVGY3TQOJQ", .sha1, 8, 30, 59⟩
    ⟨"13263420", 1, 30⟩
    (by decide) (by decide)

/-- Claim C8: `get_totp_code` is deterministic given the time.  In this
embedding it is a pure function of the URI and the single wall-clock
reading `now`, so the only content to check is that with a positive
parsed `counter` the result does not depend on `now` at all: two calls
at different clock readings return identical results (same `code`,
`time_left` and `period`). -/
theorem totp_counter_deterministic {url : String} {p : TotpParams}
    (hp : parseTotpParams url = .ok p) (hc : 0 < p.counter)
    (n1 n2 : Nat) :
    get_totp_code n1 url = get_totp_code n2 url := by
  simp only [get_totp_code, hp]
  simp only [totpCompute, if_pos hc]

set_option maxRecDepth 10000 in
/-- Witness for C8: with `counter=59` the results at clock readings 0
and 999999 coincide. -/
theorem totp_counter_deterministic_witness :
    get_totp_code 0
        "otpauth://totp/a?secret=GEZDGNBVGY3TQOJQ&digits=8&counter=59" =
      get_totp_code 999999
        "otpauth://totp/a?secret=GEZDGNBVGY3TQOJQ&digits=8&counter=59" :=
  @totp_counter_deterministic
    "otpauth://totp/a?secret=GEZDGNBVGY3TQOJQ&digits=8&counter=59"
    ⟨"GEZDGNBVGY3TQOJQ", .sha1, 8, 30, 59⟩
    (by decide) (by decide) 0 999999

theorem startsWithL_append (s b : List Char) :
    startsWithL (s ++ b) s = true := by
  induction s with
  | nil => cases b <;> simp [startsWithL]
  | cons c t ih => simp [startsWithL, ih]

theorem hasSubList_middle (a s b : List Char) :
    hasSubList (a ++ s ++ b) s = true := by
  induction a with
  | nil =>
    cases s with
    | nil => cases b <;> simp [hasSubList, startsWithL]
    | cons c t =>
      have hsw := startsWithL_append (c :: t) b
      simp only [List.cons_append] at hsw
      simp [hasSubList, hsw]
  | cons x xs ih =>
    rw [List.append_assoc] at ih
    simp [hasSubList, ih]

/-- Claim C7 (amended): for every URI with scheme `otpauth` whose query
parses with a nonempty secret and whose algorithm value does not match
SHA1, SHA256 or SHA512 case-insensitively, `get_totp_code` fails with
the `UnsupportedAlgorithm` error before any HMAC computation (the
result is the error raised at the validation step, so `totpCompute`
never runs), and the error message includes the offending algorithm
value uppercased — not as supplied, which is what the counterexample
refutes.  The ASCII hypothesis marks the domain on which the model's
`pyUpper` agrees with Python `str.upper()`. -/
theorem totp_unsupported_algorithm_error {now : Nat} {url : String}
    {st : RawParams} {s : String}
    (hscheme : urlScheme url = "otpauth")
    (hfold : paramFold (parseQsl (urlQuery url)) initParams = .ok st)
    (hsec : st.secret = some s) (hs : s ≠ "")
    (_hascii : isAsciiStr st.algorithm = true)
    (h1 : pyUpper st.algorithm ≠ "SHA1")
    (h2 : pyUpper st.algorithm ≠ "SHA256")
    (h3 : pyUpper st.algorithm ≠ "SHA512") :
    get_totp_code now url =
      .error (.unsupportedAlgorithm (pyUpper st.algorithm)) ∧
    hasSubList
      (totpErrMessage (.unsupportedAlgorithm (pyUpper st.algorithm))).toList
      (pyUpper st.algorithm).toList = true := by
  constructor
  · have hp : parseTotpParams url =
        .error (.unsupportedAlgorithm (pyUpper st.algorithm)) := by
      simp only [parseTotpParams]
      rw [if_neg (by simp [hscheme]), hfold]
      dsimp only
      rw [hsec]
      dsimp only
      rw [if_neg hs, if_neg h1, if_neg h2, if_neg h3]
    simp only [get_totp_code, hp]
  · have hmsg :
        (totpErrMessage
            (.unsupportedAlgorithm (pyUpper st.algorithm))).toList =
          "Invalid value \"".toList ++ (pyUpper st.algorithm).toList ++
            "\" for TOTP algorithm, must be SHA1, SHA256 or SHA512".toList
        := by
      simp only [totpErrMessage, String.toList, String.data_append]
    rw [hmsg]
    exact hasSubList_middle _ _ _

set_option maxRecDepth 10000 in
/-- Witness for C7 (amended) at `algorithm=md5`: the error carries
`"MD5"` and the message contains `"MD5"`. -/
theorem totp_unsupported_algorithm_error_witness :
    get_totp_code 0
        "otpauth://totp/a?secret=GEZDGNBVGY3TQOJQ&algorithm=md5" =
      .error (.unsupportedAlgorithm (pyUpper "md5")) ∧
    hasSubList
      (totpErrMessage (.unsupportedAlgorithm (pyUpper "md5"))).toList
      (pyUpper "md5").toList = true :=
  @totp_unsupported_algorithm_error 0
    "otpauth://totp/a?secret=GEZDGNBVGY3TQOJQ&algorithm=md5"
    ⟨some "GEZDGNBVGY3TQOJQ", "md5", 6, 30, 0⟩
    "GEZDGNBVGY3TQOJQ"
    (by decide) (by decide) rfl (by decide) (by decide) (by decide)
    (by decide) (by decide)

set_option maxRecDepth 10000 in
/-- Counterexample for C7 as frozen: at `algorithm=md5` the raised
error carries the uppercased value `"MD5"`, and the message does not
include the offending value as supplied (`"md5"` is not a substring of
the message). -/
theorem totp_algorithm_message_not_as_supplied :
    get_totp_code 0
        "otpauth://totp/a?secret=GEZDGNBVGY3TQOJQ&algorithm=md5" =
      .error (.unsupportedAlgorithm "MD5") ∧
    hasSubList (totpErrMessage (.unsupportedAlgorithm "MD5")).toList
      "md5".toList = false := by
  decide

set_option maxRecDepth 10000 in
/-- Claim C1: the RFC 6238 test vector — base32 of the key
`"12345678901234567890"`, SHA1, 8 digits, moving factor fixed to Unix
time 59 via `counter=59` (time step 1) — yields the documented code
`"94287082"`. -/
theorem totp_rfc6238_sha1_vector :
    get_totp_code 0
        ("otpauth://totp/Test?secret=GEZDGNBVGY3TQOJQGEZDGNBVGY3TQOJQ" ++
          "&algorithm=SHA1&digits=8&counter=59") =
      .ok ⟨"94287082", 1, 30⟩ := by
  decide

set_option maxRecDepth 10000 in
/-- Claim C2 (code bug): the time step is `int(tm_base / period)` with
binary64 true division, not the exact integer floor.  At
`counter = 2 ^ 60 - 1`, `period = 2 ^ 60` the quotient
`1 - 2 ^ (-60)` rounds to `1.0`, so the code uses time step 1 while
`floor(moving_factor / period) = 0`: the produced code is the RFC 4226
count-1 value `287082`, whereas the spec's floor rule (modelled by
`get_totp_code_floor_spec`) gives the count-0 value `755224`. -/
theorem totp_time_step_float_rounding_divergence :
    f64DivTrunc (2 ^ 60 - 1) (2 ^ 60) = 1 ∧
    (2 ^ 60 - 1) / 2 ^ 60 = 0 ∧
    get_totp_code 0
        ("otpauth://totp/a?secret=GEZDGNBVGY3TQOJQGEZDGNBVGY3TQOJQ" ++
          "&counter=1152921504606846975&period=1152921504606846976") =
      .ok ⟨"287082", 1, 1152921504606846976⟩ ∧
    get_totp_code_floor_spec 0
        ("otpauth://totp/a?secret=GEZDGNBVGY3TQOJQGEZDGNBVGY3TQOJQ" ++
          "&counter=1152921504606846975&period=1152921504606846976") =
      .ok ⟨"755224", 1, 1152921504606846976⟩ := by
  refine ⟨by decide, by decide, by decide, by decide⟩

set_option maxRecDepth 10000 in
/-- Claim C3 (code bug): a `digits` value made of numeric but
non-decimal characters (here `"²"`, U+00B2) passes `str.isnumeric()`
but `int(...)` rejects it, so `get_totp_code` raises `ValueError`
instead of silently reverting to the default. -/
theorem totp_nonascii_numeric_digits_raises :
    pyIsNumericStr "²" = true ∧
    pyIntOfDigits "²" = none ∧
    get_totp_code 0 "otpauth://totp/a?secret=GEZDGNBVGY3TQOJQ&digits=²" =
      .error .valueError := by
  decide

/-! ## Last-occurrence-wins characterisation of the query loop -/

/-- The per-field coercion test for the numeric parameters: the value a
`digits`/`period`/`counter` occurrence contributes when it passes
(numeric, decimal, positive), `none` when it is ignored or raises. -/
def numPassVal (v : String) : Option Nat :=
  if pyIsNumericStr v then
    match pyIntOfDigits v with
    | some n => if 0 < n then some n else none
    | none => none
  else none

/-- Values contributed by the passing occurrences of a numeric key, in
query order. -/
def numOccs (key : String) (pairs : List (String × String)) : List Nat :=
  pairs.filterMap fun kv => if kv.1 = key then numPassVal kv.2 else none

/-- Values of the occurrences of a string-valued key, in query order
(`secret` and `algorithm` accept every value). -/
def strOccs (key : String) (pairs : List (String × String)) :
    List String :=
  pairs.filterMap fun kv => if kv.1 = key then some kv.2 else none

theorem strOccs_cons (key k v : String) (rest : List (String × String)) :
    strOccs key ((k, v) :: rest) =
      if k = key then v :: strOccs key rest else strOccs key rest := by
  simp only [strOccs, List.filterMap_cons]
  by_cases hk : k = key
  · simp [hk]
  · simp [hk]

theorem numOccs_cons (key k v : String) (rest : List (String × String)) :
    numOccs key ((k, v) :: rest) =
      if k = key then
        (match numPassVal v with
          | some n => n :: numOccs key rest
          | none => numOccs key rest)
      else numOccs key rest := by
  simp only [numOccs, List.filterMap_cons]
  by_cases hk : k = key
  · subst hk
    simp only [if_pos rfl]
    cases numPassVal v <;> simp [numOccs]
  · simp [hk]

theorem getLast?_getD_cons {α : Type} (n d : α) (L : List α) :
    ((n :: L).getLast?).getD d = (L.getLast?).getD n := by
  cases L with
  | nil => rfl
  | cons x xs =>
    rw [List.getLast?_cons_cons]
    have hsome : (x :: xs).getLast?.isSome := by
      rw [List.getLast?_isSome]
      simp
    obtain ⟨y, hy⟩ := Option.isSome_iff_exists.mp hsome
    rw [hy]
    rfl

theorem getLast?_map_getD_cons {α β : Type} (f : α → β) (n : α)
    (L : List α) (d : β) :
    (((n :: L).getLast?).map f).getD d =
      ((L.getLast?).map f).getD (f n) := by
  cases L with
  | nil => rfl
  | cons x xs =>
    rw [List.getLast?_cons_cons]
    have hsome : (x :: xs).getLast?.isSome := by
      rw [List.getLast?_isSome]
      simp
    obtain ⟨y, hy⟩ := Option.isSome_iff_exists.mp hsome
    rw [hy]
    rfl

theorem pyNumParam_step {v : String} {old d : Nat}
    (h : pyNumParam v old = .ok d) :
    numPassVal v = some d ∨ (numPassVal v = none ∧ d = old) := by
  simp only [pyNumParam] at h
  by_cases hn : pyIsNumericStr v = true
  · rw [if_pos hn] at h
    cases hi : pyIntOfDigits v with
    | none => rw [hi] at h; exact Except.noConfusion h
    | some m =>
      rw [hi] at h
      injection h with h
      by_cases hm : 0 < m
      · rw [if_pos hm] at h
        subst h
        refine Or.inl ?_
        simp [numPassVal, hn, hi, hm]
      · rw [if_neg hm] at h
        refine Or.inr ⟨?_, h.symm⟩
        simp [numPassVal, hn, hi, hm]
  · rw [if_neg hn] at h
    injection h with h
    refine Or.inr ⟨?_, h.symm⟩
    simp [numPassVal, hn]

theorem paramFold_lastWins :
    ∀ (pairs : List (String × String)) (st0 st' : RawParams),
      paramFold pairs st0 = .ok st' →
      st'.secret =
        (((strOccs "secret" pairs).getLast?).map some).getD st0.secret ∧
      st'.algorithm =
        ((strOccs "algorithm" pairs).getLast?).getD st0.algorithm ∧
      st'.digits = ((numOccs "digits" pairs).getLast?).getD st0.digits ∧
      st'.period = ((numOccs "period" pairs).getLast?).getD st0.period ∧
      st'.counter =
        ((numOccs "counter" pairs).getLast?).getD st0.counter := by
  intro pairs
  induction pairs with
  | nil =>
    intro st0 st' h
    injection h with h
    subst h
    simp [strOccs, numOccs]
  | cons kv rest ih =>
    intro st0 st' h
    simp only [paramFold] at h
    cases happ : applyParam st0 kv with
    | error e => rw [happ] at h; exact Except.noConfusion h
    | ok st1 =>
      rw [happ] at h
      have hr := ih st1 st' h
      obtain ⟨k, v⟩ := kv
      simp only [applyParam] at happ
      by_cases hk1 : k = "secret"
      · subst hk1
        rw [if_pos rfl] at happ
        injection happ with happ
        subst happ
        refine ⟨?_, ?_, ?_, ?_, ?_⟩
        · rw [strOccs_cons, if_pos rfl, getLast?_map_getD_cons]
          exact hr.1
        · rw [strOccs_cons, if_neg (by decide)]
          exact hr.2.1
        · rw [numOccs_cons, if_neg (by decide)]
          exact hr.2.2.1
        · rw [numOccs_cons, if_neg (by decide)]
          exact hr.2.2.2.1
        · rw [numOccs_cons, if_neg (by decide)]
          exact hr.2.2.2.2
      · rw [if_neg hk1] at happ
        by_cases hk2 : k = "algorithm"
        · subst hk2
          rw [if_pos rfl] at happ
          injection happ with happ
          subst happ
          refine ⟨?_, ?_, ?_, ?_, ?_⟩
          · rw [strOccs_cons, if_neg (by decide)]
            exact hr.1
          · rw [strOccs_cons, if_pos rfl, getLast?_getD_cons]
            exact hr.2.1
          · rw [numOccs_cons, if_neg (by decide)]
            exact hr.2.2.1
          · rw [numOccs_cons, if_neg (by decide)]
            exact hr.2.2.2.1
          · rw [numOccs_cons, if_neg (by decide)]
            exact hr.2.2.2.2
        · rw [if_neg hk2] at happ
          by_cases hk3 : k = "digits"
          · subst hk3
            rw [if_pos rfl] at happ
            cases hnum : pyNumParam v st0.digits with
            | error e =>
              rw [hnum] at happ
              exact Except.noConfusion happ
            | ok dd =>
              rw [hnum] at happ
              dsimp only [Except.map] at happ
              injection happ with happ
              subst happ
              rcases pyNumParam_step hnum with hpv | ⟨hpv, hdd⟩
              · refine ⟨?_, ?_, ?_, ?_, ?_⟩
                · rw [strOccs_cons, if_neg (by decide)]
                  exact hr.1
                · rw [strOccs_cons, if_neg (by decide)]
                  exact hr.2.1
                · rw [numOccs_cons, if_pos rfl, hpv]
                  dsimp only
                  rw [getLast?_getD_cons]
                  exact hr.2.2.1
                · rw [numOccs_cons, if_neg (by decide)]
                  exact hr.2.2.2.1
                · rw [numOccs_cons, if_neg (by decide)]
                  exact hr.2.2.2.2
              · refine ⟨?_, ?_, ?_, ?_, ?_⟩
                · rw [strOccs_cons, if_neg (by decide)]
                  exact hr.1
                · rw [strOccs_cons, if_neg (by decide)]
                  exact hr.2.1
                · rw [numOccs_cons, if_pos rfl, hpv]
                  dsimp only
                  have h3 := hr.2.2.1
                  rw [hdd] at h3
                  exact h3
                · rw [numOccs_cons, if_neg (by decide)]
                  exact hr.2.2.2.1
                · rw [numOccs_cons, if_neg (by decide)]
                  exact hr.2.2.2.2
          · rw [if_neg hk3] at happ
            by_cases hk4 : k = "period"
            · subst hk4
              rw [if_pos rfl] at happ
              cases hnum : pyNumParam v st0.period with
              | error e =>
                rw [hnum] at happ
                exact Except.noConfusion happ
              | ok dd =>
                rw [hnum] at happ
                dsimp only [Except.map] at happ
                injection happ with happ
                subst happ
                rcases pyNumParam_step hnum with hpv | ⟨hpv, hdd⟩
                · refine ⟨?_, ?_, ?_, ?_, ?_⟩
                  · rw [strOccs_cons, if_neg (by decide)]
                    exact hr.1
                  · rw [strOccs_cons, if_neg (by decide)]
                    exact hr.2.1
                  · rw [numOccs_cons, if_neg (by decide)]
                    exact hr.2.2.1
                  · rw [numOccs_cons, if_pos rfl, hpv]
                    dsimp only
                    rw [getLast?_getD_cons]
                    exact hr.2.2.2.1
                  · rw [numOccs_cons, if_neg (by decide)]
                    exact hr.2.2.2.2
                · refine ⟨?_, ?_, ?_, ?_, ?_⟩
                  · rw [strOccs_cons, if_neg (by decide)]
                    exact hr.1
                  · rw [strOccs_cons, if_neg (by decide)]
                    exact hr.2.1
                  · rw [numOccs_cons, if_neg (by decide)]
                    exact hr.2.2.1
                  · rw [numOccs_cons, if_pos rfl, hpv]
                    dsimp only
                    have h4 := hr.2.2.2.1
                    rw [hdd] at h4
                    exact h4
                  · rw [numOccs_cons, if_neg (by decide)]
                    exact hr.2.2.2.2
            · rw [if_neg hk4] at happ
              by_cases hk5 : k = "counter"
              · subst hk5
                rw [if_pos rfl] at happ
                cases hnum : pyNumParam v st0.counter with
                | error e =>
                  rw [hnum] at happ
                  exact Except.noConfusion happ
                | ok dd =>
                  rw [hnum] at happ
                  dsimp only [Except.map] at happ
                  injection happ with happ
                  subst happ
                  rcases pyNumParam_step hnum with hpv | ⟨hpv, hdd⟩
                  · refine ⟨?_, ?_, ?_, ?_, ?_⟩
                    · rw [strOccs_cons, if_neg (by decide)]
                      exact hr.1
                    · rw [strOccs_cons, if_neg (by decide)]
                      exact hr.2.1
                    · rw [numOccs_cons, if_neg (by decide)]
                      exact hr.2.2.1
                    · rw [numOccs_cons, if_neg (by decide)]
                      exact hr.2.2.2.1
                    · rw [numOccs_cons, if_pos rfl, hpv]
                      dsimp only
                      rw [getLast?_getD_cons]
                      exact hr.2.2.2.2
                  · refine ⟨?_, ?_, ?_, ?_, ?_⟩
                    · rw [strOccs_cons, if_neg (by decide)]
                      exact hr.1
                    · rw [strOccs_cons, if_neg (by decide)]
                      exact hr.2.1
                    · rw [numOccs_cons, if_neg (by decide)]
                      exact hr.2.2.1
                    · rw [numOccs_cons, if_neg (by decide)]
                      exact hr.2.2.2.1
                    · rw [numOccs_cons, if_pos rfl, hpv]
                      dsimp only
                      have h5 := hr.2.2.2.2
                      rw [hdd] at h5
                      exact h5
              · rw [if_neg hk5] at happ
                injection happ with happ
                subst happ
                refine ⟨?_, ?_, ?_, ?_, ?_⟩
                · rw [strOccs_cons, if_neg hk1]
                  exact hr.1
                · rw [strOccs_cons, if_neg hk2]
                  exact hr.2.1
                · rw [numOccs_cons, if_neg hk3]
                  exact hr.2.2.1
                · rw [numOccs_cons, if_neg hk4]
                  exact hr.2.2.2.1
                · rw [numOccs_cons, if_neg hk5]
                  exact hr.2.2.2.2

/-- Claim C10: when a recognized query parameter (`secret`,
`algorithm`, `digits`, `period`, `counter`) appears more than once in
the query string, the last occurrence that passes the per-field
coercion rule (any value for `secret`/`algorithm`; numeric, decimal
and positive for the other three) determines the value used, and
earlier occurrences have no effect; a field with no passing occurrence
keeps its default.  The ASCII hypothesis marks the domain on which the
modelled `str.isnumeric`/`int` agree with Python. -/
theorem totp_last_occurrence_wins {qs : String} {st : RawParams}
    (_hascii : isAsciiStr qs = true)
    (h : paramFold (parseQsl qs) initParams = .ok st) :
    st.secret = (strOccs "secret" (parseQsl qs)).getLast? ∧
    st.algorithm =
      ((strOccs "algorithm" (parseQsl qs)).getLast?).getD "SHA1" ∧
    st.digits = ((numOccs "digits" (parseQsl qs)).getLast?).getD 6 ∧
    st.period = ((numOccs "period" (parseQsl qs)).getLast?).getD 30 ∧
    st.counter = ((numOccs "counter" (parseQsl qs)).getLast?).getD 0 := by
  obtain ⟨h1, h2, h3, h4, h5⟩ :=
    paramFold_lastWins (parseQsl qs) initParams st h
  refine ⟨?_, h2, h3, h4, h5⟩
  rw [h1]
  cases (strOccs "secret" (parseQsl qs)).getLast? <;> rfl

set_option maxRecDepth 10000 in
/-- Witness for C10 on a query where every recognized key appears
twice: the duplicates `secret=B`, `algorithm=md5`, `counter=12` win,
the malformed `digits=abc` and non-positive `period=0` occurrences are
skipped in favour of the other occurrence of their key. -/
theorem totp_last_occurrence_wins_witness :
    (RawParams.mk (some "B") "md5" 7 90 12).secret =
        (strOccs "secret" (parseQsl
          ("secret=A&secret=B&digits=7&digits=abc&period=0&period=90" ++
            "&counter=5&counter=12&algorithm=sha1&algorithm=md5"))).getLast? ∧
    (RawParams.mk (some "B") "md5" 7 90 12).algorithm =
        ((strOccs "algorithm" (parseQsl
          ("secret=A&secret=B&digits=7&digits=abc&period=0&period=90" ++
            "&counter=5&counter=12&algorithm=sha1&algorithm=md5"))).getLast?).getD
          "SHA1" ∧
    (RawParams.mk (some "B") "md5" 7 90 12).digits =
        ((numOccs "digits" (parseQsl
          ("secret=A&secret=B&digits=7&digits=abc&period=0&period=90" ++
            "&counter=5&counter=12&algorithm=sha1&algorithm=md5"))).getLast?).getD
          6 ∧
    (RawParams.mk (some "B") "md5" 7 90 12).period =
        ((numOccs "period" (parseQsl
          ("secret=A&secret=B&digits=7&digits=abc&period=0&period=90" ++
            "&counter=5&counter=12&algorithm=sha1&algorithm=md5"))).getLast?).getD
          30 ∧
    (RawParams.mk (some "B") "md5" 7 90 12).counter =
        ((numOccs "counter" (parseQsl
          ("secret=A&secret=B&digits=7&digits=abc&period=0&period=90" ++
            "&counter=5&counter=12&algorithm=sha1&algorithm=md5"))).getLast?).getD
          0 :=
  @totp_last_occurrence_wins
    ("secret=A&secret=B&digits=7&digits=abc&period=0&period=90" ++
      "&counter=5&counter=12&algorithm=sha1&algorithm=md5")
    ⟨some "B", "md5", 7, 90, 12⟩
    (by decide) (by decide)

/-! ## Base32 padding-rule lemmas -/

/-- Character of the base32 alphabet as it may appear in a secret:
letters of either case or the digits `2`-`7`. -/
def isB32Char (c : Char) : Bool :=
  (65 ≤ c.toNat && c.toNat ≤ 90) || (97 ≤ c.toNat && c.toNat ≤ 122) ||
    (50 ≤ c.toNat && c.toNat ≤ 55)

theorem char_toNat_ofNat {m : Nat} (h : m < 55296) :
    (Char.ofNat m).toNat = m := by
  unfold Char.ofNat
  rw [dif_pos (Or.inl h : Nat.isValidChar m)]
  rfl

theorem b32rev_toUpper_isSome {c : Char} (h : isB32Char c = true) :
    (b32rev (Char.toUpper c)).isSome = true := by
  simp only [isB32Char, Bool.or_eq_true, Bool.and_eq_true,
    decide_eq_true_eq] at h
  by_cases hlow : 97 ≤ c.toNat ∧ c.toNat ≤ 122
  · have hup : (Char.toUpper c).toNat = c.toNat - 32 := by
      unfold Char.toUpper
      rw [if_pos (by omega)]
      exact char_toNat_ofNat (by omega)
    simp only [b32rev, hup]
    rw [if_pos (by simp only [Bool.and_eq_true, decide_eq_true_eq]; omega)]
    rfl
  · have hup : Char.toUpper c = c := by
      unfold Char.toUpper
      rw [if_neg (by omega)]
    rw [hup]
    have hrange : (65 ≤ c.toNat ∧ c.toNat ≤ 90) ∨
        (50 ≤ c.toNat ∧ c.toNat ≤ 55) := by
      rcases h with (h | h) | h
      · exact Or.inl h
      · exact absurd h hlow
      · exact Or.inr h
    simp only [b32rev]
    rcases hrange with h | h
    · rw [if_pos (by simp only [Bool.and_eq_true, decide_eq_true_eq]; omega)]
      rfl
    · rw [if_neg (by simp only [Bool.and_eq_true, decide_eq_true_eq]; omega),
        if_pos (by simp only [Bool.and_eq_true, decide_eq_true_eq]; omega)]
      rfl

theorem toUpper_ne_eq_char {c : Char} (h : isB32Char c = true) :
    Char.toUpper c ≠ '=' := by
  simp only [isB32Char, Bool.or_eq_true, Bool.and_eq_true,
    decide_eq_true_eq] at h
  intro hcon
  have : (Char.toUpper c).toNat = 61 := by rw [hcon]; rfl
  by_cases hlow : 97 ≤ c.toNat ∧ c.toNat ≤ 122
  · have hup : (Char.toUpper c).toNat = c.toNat - 32 := by
      unfold Char.toUpper
      rw [if_pos (by omega)]
      exact char_toNat_ofNat (by omega)
    omega
  · have hup : Char.toUpper c = c := by
      unfold Char.toUpper
      rw [if_neg (by omega)]
    rw [hup] at this
    omega

theorem dropWhile_replicate_append (p : Char → Bool) (k : Nat) (x : Char)
    (l : List Char) (hx : p x = true) :
    List.dropWhile p (List.replicate k x ++ l) = List.dropWhile p l := by
  induction k with
  | zero => rfl
  | succ k ih => simp [List.replicate_succ, List.dropWhile_cons, hx, ih]

theorem dropWhile_eq_self (p : Char → Bool) (l : List Char)
    (h : ∀ c ∈ l, p c = false) : List.dropWhile p l = l := by
  cases l with
  | nil => rfl
  | cons c t =>
    rw [List.dropWhile_cons, if_neg (by simp [h c (List.mem_cons_self c t)])]

theorem rstripEq_append_replicate (l : List Char) (k : Nat)
    (h : ∀ c ∈ l, c ≠ '=') :
    rstripEq (l ++ List.replicate k '=') = l := by
  unfold rstripEq
  rw [List.reverse_append, List.reverse_replicate,
    dropWhile_replicate_append _ _ _ _ (by simp),
    dropWhile_eq_self _ _ (by
      intro c hc
      simp only [List.mem_reverse] at hc
      simp [h c hc]),
    List.reverse_reverse]

theorem b32Vals_isSome (l : List Char)
    (h : ∀ c ∈ l, (b32rev c).isSome = true) :
    (b32Vals l).isSome = true := by
  induction l with
  | nil => rfl
  | cons c t ih =>
    obtain ⟨v, hv⟩ :=
      Option.isSome_iff_exists.mp (h c (List.mem_cons_self c t))
    obtain ⟨vs, hvs⟩ := Option.isSome_iff_exists.mp
      (ih fun x hx => h x (List.mem_cons_of_mem c hx))
    simp [b32Vals, hv, hvs]

theorem b32decode_aux (l : List Char) (k : Nat)
    (hvalid : ∀ c ∈ l, isB32Char c = true)
    (hlen : (l.length + k) % 8 = 0)
    (hk : k = 0 ∨ k = 1 ∨ k = 3 ∨ k = 4 ∨ k = 6) :
    (b32decode (l ++ List.replicate k '=')).isSome = true := by
  have hupvalid : ∀ c ∈ l.map Char.toUpper, (b32rev c).isSome = true := by
    intro c hc
    obtain ⟨a, ha, rfl⟩ := List.mem_map.mp hc
    exact b32rev_toUpper_isSome (hvalid a ha)
  have hupne : ∀ c ∈ l.map Char.toUpper, c ≠ '=' := by
    intro c hc
    obtain ⟨a, ha, rfl⟩ := List.mem_map.mp hc
    exact toUpper_ne_eq_char (hvalid a ha)
  simp only [b32decode]
  rw [if_neg (by
    simp only [List.length_append, List.length_replicate]
    omega)]
  have hsu : List.map Char.toUpper (l ++ List.replicate k '=') =
      l.map Char.toUpper ++ List.replicate k '=' := by
    rw [List.map_append, List.map_replicate,
      show Char.toUpper '=' = '=' by decide]
  rw [hsu,
    rstripEq_append_replicate _ _ hupne]
  obtain ⟨vals, hvals⟩ :=
    Option.isSome_iff_exists.mp (b32Vals_isSome _ hupvalid)
  rw [hvals]
  have hpadch : (l.map Char.toUpper ++ List.replicate k '=').length -
      (l.map Char.toUpper).length = k := by
    simp
  rw [hpadch]
  dsimp only
  rw [if_pos hk]
  rfl

/-- Claim C4: after the padding step, base32 decoding succeeds or fails
exactly as the padding rule predicts.  First conjunct: for every secret
whose length has remainder 1, 3 or 6 mod 8 (no amount of `=`-padding
can fix these), decoding fails and `get_totp_code` reports
`InvalidSecret` (the hypothesis rules out the astronomically large time
step at which the preceding float division would raise `OverflowError`
first, CPython's evaluation order).  Second conjunct: for every secret
over the base32 alphabet whose length has one of the other five
remainders, decoding of the padded secret succeeds. -/
theorem totp_secret_padding_decode :
    (∀ (now : Nat) (p : TotpParams),
      (p.secret.toList.length % 8 = 1 ∨ p.secret.toList.length % 8 = 3 ∨
        p.secret.toList.length % 8 = 6) →
      ¬ 2 ^ 1024 ≤ f64DivTrunc
          (if 0 < p.counter then p.counter else now) p.period →
      totpCompute now p = .error .invalidSecret) ∧
    (∀ s : String, s.toList.all isB32Char = true →
      s.toList.length % 8 ≠ 1 → s.toList.length % 8 ≠ 3 →
      s.toList.length % 8 ≠ 6 →
      (b32decode (padSecret s).toList).isSome = true) := by
  constructor
  · intro now p hrem hov
    have hpadeq : padSecret p.secret = p.secret := by
      simp only [padSecret]
      rw [if_neg (by omega)]
    have hdec : b32decode (padSecret p.secret).toList = none := by
      rw [hpadeq]
      simp only [b32decode]
      rw [if_pos (by omega)]
    simp only [totpCompute]
    rw [if_neg hov, hdec]
  · intro s hchars h1 h3 h6
    have hvalid : ∀ c ∈ s.toList, isB32Char c = true := by
      rw [List.all_eq_true] at hchars
      exact fun c hc => hchars c hc
    simp only [padSecret]
    by_cases hpad : s.toList.length % 8 = 2 ∨ s.toList.length % 8 = 4 ∨
        s.toList.length % 8 = 5 ∨ s.toList.length % 8 = 7
    · rw [if_pos hpad]
      exact b32decode_aux s.toList (8 - s.toList.length % 8) hvalid
        (by omega) (by omega)
    · rw [if_neg hpad]
      have := b32decode_aux s.toList 0 hvalid (by omega) (Or.inl rfl)
      simpa using this

set_option maxRecDepth 10000 in
/-- Witness for C4: a 3-character secret makes the whole pipeline fail
with `InvalidSecret`, and a 2-character alphabet secret (padded with
six `=`) decodes. -/
theorem totp_secret_padding_decode_witness :
    totpCompute 0 (TotpParams.mk "AAA" .sha1 6 30 59) =
      .error .invalidSecret ∧
    (b32decode (padSecret "AA").toList).isSome = true :=
  ⟨totp_secret_padding_decode.1 0 (TotpParams.mk "AAA" .sha1 6 30 59)
      (by decide) (by decide),
    totp_secret_padding_decode.2 "AA" (by decide) (by decide) (by decide)
      (by decide)⟩

end KSM
